import Mathlib

/-!
Verification of the data-reshaping pipeline in `scripts/process_template.py`
(`load_dfs` and `df_to_dict`).

Modelling conventions (shallow embedding):

* A pandas DataFrame with a (possibly multi-level) row index is modelled by
  `MTable`: a number of index levels, a list of column labels, and a list of
  rows, each row being an index tuple (`List String`, one label per level)
  together with a vector of numeric cells.  All labels (countries, scenarios,
  years, technologies, materials, indicators) are modelled as strings; e.g.
  the year `2020` is the label `"2020"`.  Cell values are modelled as exact
  integers (`Int`); the script compares values against `0` with exact
  equality, and no claim depends on fractional or missing (NaN) values.
* `pandas.groupby` sorts group keys and `unstack` sorts labels; we use
  first-occurrence order (`keyList`) instead.  This affects only the *order*
  of keys in the produced tables and association lists, never membership or
  values.  The configured country list `['KE','RW','UG','UK','ZM']` is itself
  alphabetically sorted, so for the Country level (the only level whose order
  a claim mentions) the two conventions coincide: `.loc[countries]` reorders
  the rows into configured = alphabetical order, and every later operation
  preserves that order under either convention.
* `.loc[list]` on the first index level, which raises `KeyError` when a
  requested label is absent, is modelled with `Except String`.
* Nested dictionaries produced by `df_to_dict` are modelled by the mutual
  inductive `NDict`/`NList`; dictionaries are association lists (the script
  relies on Python dict insertion order the same way).
-/

/-- First-occurrence deduplication: the distinct values of a list, in order
of first appearance.  Used to model the set of group keys / unique labels. -/
def keyList {α : Type} [DecidableEq α] : List α → List α
  | [] => []
  | a :: l => a :: (keyList l).filter (fun x => x ≠ a)

/-- Concatenation of the images of `f`, i.e. `List.flatMap`; written out so
that all lemmas about it are proved here. -/
def catMap {α β : Type} (f : α → List β) : List α → List β
  | [] => []
  | a :: l => f a ++ catMap f l

/-- Pointwise sum of a list of equal-length integer vectors (the numeric part
of `groupby(...).sum()`). -/
def sumVecs : List (List Int) → List Int
  | [] => []
  | [v] => v
  | v :: l => List.zipWith (· + ·) v (sumVecs l)

/-- A single-level table: column labels and rows `(row label, cells)`.
This is the shape seen by the innermost branch of `df_to_dict`. -/
structure STable where
  cols : List String
  rows : List (String × List Int)

/-- Well-formedness of a single-level table: every row has one cell per
column (true of every DataFrame). -/
def WfS (t : STable) : Prop := ∀ r ∈ t.rows, r.2.length = t.cols.length

/-- Line 82, `df = df.loc[(df!=0).any(1)]`: keep the rows that have at least
one nonzero cell. -/
def dropZeroRows (t : STable) : STable :=
  ⟨t.cols, t.rows.filter (fun r => r.2.any (fun v => v != 0))⟩

/-- Column positions kept by line 83: positions at which some row has a
nonzero cell. -/
def keepCols (t : STable) : List Nat :=
  (List.range t.cols.length).filter
    (fun j => t.rows.any (fun r => r.2.getD j 0 != 0))

/-- Line 83, `df = df.loc[:, (df != 0).any(axis=0)]`: keep the columns that
have at least one nonzero cell. -/
def dropZeroCols (t : STable) : STable :=
  ⟨(keepCols t).map (fun j => t.cols.getD j ""),
   t.rows.map (fun r => (r.1, (keepCols t).map (fun j => r.2.getD j 0)))⟩

/-- A table with a multi-level row index: `nlevels` index levels, column
labels, and rows `(index tuple, cells)`. -/
structure MTable where
  nlevels : Nat
  cols : List String
  rows : List (List String × List Int)

/-- Well-formedness of a multi-level table: every row has one cell per
column. -/
def Wf (t : MTable) : Prop := ∀ r ∈ t.rows, r.2.length = t.cols.length

mutual

/-- The nested-dictionary result of `df_to_dict`: either a leaf
`{row label: {column label: value}}` (the `df.to_dict('index')` of line 86)
or a dictionary keyed by the outer index level. -/
inductive NDict : Type where
  | leaf : List (String × List (String × Int)) → NDict
  | node : NList → NDict

/-- Association list of `(outer label, nested dictionary)` pairs. -/
inductive NList : Type where
  | nil : NList
  | cons : String → NDict → NList → NList

end

/-- Convert a plain list of pairs into an `NList`. -/
def NList.ofList : List (String × NDict) → NList
  | [] => .nil
  | p :: l => .cons p.1 p.2 (NList.ofList l)

/-- View the leaf table: at the innermost level the index tuples are
singletons, and the row label is the tuple's single entry. -/
def leafTable (cols : List String) (rows : List (List String × List Int)) : STable :=
  ⟨cols, rows.map (fun r => (r.1.headD "", r.2))⟩

/-- Line 86, `df.to_dict('index')`: one entry per row, mapping the row label
to the association of column labels with cell values. -/
def toDict (t : STable) : List (String × List (String × Int)) :=
  t.rows.map (fun r => (r.1, t.cols.zip r.2))

/-- The innermost branch of `df_to_dict` (lines 81-86): optionally drop
all-zero rows and then all-zero columns, and convert to a dictionary. -/
def mkLeaf (cols : List String) (rows : List (List String × List Int))
    (drop_full_zeros : Bool) : List (String × List (String × Int)) :=
  toDict (if drop_full_zeros
          then dropZeroCols (dropZeroRows (leafTable cols rows))
          else leafTable cols rows)

/-- `df.groupby(level=0)` group keys: the distinct outermost index labels. -/
def level0Keys (rows : List (List String × List Int)) : List String :=
  keyList (rows.map (fun r => r.1.headD ""))

/-- The group of rows with outermost label `k`, with that level stripped
(`g.droplevel(0)`, line 79). -/
def groupRows (k : String) (rows : List (List String × List Int)) :
    List (List String × List Int) :=
  (rows.filter (fun r => r.1.headD "" == k)).map (fun r => (r.1.tail, r.2))

/-- `df_to_dict` (lines 77-86), by recursion on the number of index levels.
With two or more levels the index is a `MultiIndex` and the function recurses
per outer-level group; note that, exactly as on line 79 of the source, the
recursive call does NOT pass `drop_full_zeros` on, so the recursion always
uses the Python default `True`. -/
def dfToDictGo : Nat → List String → List (List String × List Int) → Bool → NDict
  | 0, cols, rows, dz => .leaf (mkLeaf cols rows dz)
  | 1, cols, rows, dz => .leaf (mkLeaf cols rows dz)
  | n + 2, cols, rows, _ =>
      .node (NList.ofList ((level0Keys rows).map
        (fun k => (k, dfToDictGo (n + 1) cols (groupRows k rows) true))))

/-- `df_to_dict(df, drop_full_zeros)`.  The Python default for
`drop_full_zeros` is `True`; `main` passes `not preserve_zeros`. -/
def df_to_dict (df : MTable) (drop_full_zeros : Bool) : NDict :=
  dfToDictGo df.nlevels df.cols df.rows drop_full_zeros

/-- Row/column-wise superset relation between two leaf dictionaries: every
row of `s` appears in `b` with the same label, its column map is a sub-map of
the corresponding one in `b`, the extra cells in `b` are zero, and every row
of `b` missing from `s` is entirely zero. -/
def LeafSup (b s : List (String × List (String × Int))) : Prop :=
  (∀ p ∈ s, ∃ q ∈ b, q.1 = p.1 ∧ (∀ c ∈ p.2, c ∈ q.2) ∧
      (∀ c ∈ q.2, c ∈ p.2 ∨ c.2 = 0)) ∧
  (∀ q ∈ b, (∃ p ∈ s, p.1 = q.1) ∨ (∀ c ∈ q.2, c.2 = 0))

mutual

/-- The first nested dictionary dominates the second: identically-keyed
structure, with `LeafSup` at the leaves. -/
def NSup : NDict → NDict → Prop
  | .leaf b, .leaf s => LeafSup b s
  | .node bs, .node ss => NSupL bs ss
  | _, _ => False

/-- Pointwise `NSup` on association lists with equal keys. -/
def NSupL : NList → NList → Prop
  | .nil, .nil => True
  | .cons k d l, .cons k2 d2 l2 => k = k2 ∧ NSup d d2 ∧ NSupL l l2
  | _, _ => False

end

mutual

/-- `NSup` is reflexive. -/
def nsupRefl : (d : NDict) → NSup d d
  | .leaf b =>
      ⟨fun p hp => ⟨p, hp, rfl, fun _ hc => hc, fun c hc => Or.inl hc⟩,
       fun q hq => Or.inl ⟨q, hq, rfl⟩⟩
  | .node l => nsupLRefl l

/-- `NSupL` is reflexive. -/
def nsupLRefl : (l : NList) → NSupL l l
  | .nil => True.intro
  | .cons _ d rest => ⟨rfl, nsupRefl d, nsupLRefl rest⟩

end

mutual

/-- `depthOk n d` holds when `d` consists of exactly `n` nested dictionary
levels above a leaf. -/
def depthOk : Nat → NDict → Prop
  | 0, .leaf _ => True
  | n + 1, .node l => depthOkL n l
  | _, _ => False

/-- All children satisfy `depthOk n`. -/
def depthOkL : Nat → NList → Prop
  | _, .nil => True
  | n, .cons _ d rest => depthOk n d ∧ depthOkL n rest

end

/-- Look up a key in an `NList`. -/
def nlistFind (k : String) : NList → Option NDict
  | .nil => none
  | .cons k2 d rest => if k2 == k then some d else nlistFind k rest

/-- Look up a row label in a leaf dictionary. -/
def leafFind (k : String) : List (String × List (String × Int)) → Option (List (String × Int))
  | [] => none
  | p :: rest => if p.1 == k then some p.2 else leafFind k rest

/-- Three-level access `d[k1][k2][k3]` into a nested dictionary, returning
the column map of the addressed leaf row. -/
def dig3 (d : NDict) (k1 k2 k3 : String) : Option (List (String × Int)) :=
  match d with
  | .node l =>
      match nlistFind k1 l with
      | some (.node l2) =>
          match nlistFind k2 l2 with
          | some (.leaf b) => leafFind k3 b
          | _ => none
      | _ => none
  | _ => none

/-- The fixed code-to-name mapping of `load_dfs` (lines 16-22). -/
def rename_dict : List (String × String) :=
  [("KE", "Kenya"), ("RW", "Rwanda"), ("UG", "Uganda"),
   ("UK", "United Kingdom"), ("ZM", "Zambia")]

/-- `countries = list(rename_dict.keys())` (line 23). -/
def countries : List String := rename_dict.map (fun p => p.1)

/-- `countries_alt = [n for n in countries if n != 'UK']` (line 24). -/
def countries_alt : List String := countries.filter (fun n => n ≠ "UK")

/-- The full country names, in configured order. -/
def full_names : List String :=
  ["Kenya", "Rwanda", "Uganda", "United Kingdom", "Zambia"]

/-- The full country names of the non-UK countries, in configured order. -/
def full_names_alt : List String := ["Kenya", "Rwanda", "Uganda", "Zambia"]

/-- Apply a label mapping the way `DataFrame.rename` does: a label that is a
key of the mapping is replaced, any other label is kept. -/
def renameLabel (m : List (String × String)) (s : String) : String :=
  match m.filter (fun p => p.1 == s) with
  | [] => s
  | p :: _ => p.2

/-- Line 73, `df.rename(index=rename_dict, inplace=True)`: with a plain dict
and no `level` argument pandas applies the mapping to the labels of EVERY
level of the row index. -/
def renameIndex (t : MTable) : MTable :=
  ⟨t.nlevels, t.cols,
   t.rows.map (fun r => (r.1.map (renameLabel rename_dict), r.2))⟩

/-- One record of the emissions CSV `E_matbytech_bycountry.csv` after
`read_csv(..., index_col=0).fillna(0)`: the key columns and the numeric
material columns (one cell per entry of `EmCSV.matCols`). -/
structure EmRow where
  country : String
  scenario : String
  year : String
  tech : String
  vals : List Int

/-- The emissions CSV: its material column headers and its records. -/
structure EmCSV where
  matCols : List String
  rows : List EmRow

/-- One record of the jobs CSV `jobs_forplot.csv` after dropping the
`Country`/`ISO3` columns and renaming `country`/`scenario`/`tech`
(lines 41-46); `value` is the single remaining numeric column. -/
structure JRow where
  country : String
  scenario : String
  tech : String
  parameter : String
  indicator : String
  year : String
  value : Int

/-- `groupby(keys).sum()` over records: one output row per distinct key (in
first-occurrence order), whose cells are the pointwise sum of the group's
value vectors. -/
def groupBySum {α : Type} (keyf : α → List String) (valf : α → List Int)
    (rows : List α) : List (List String × List Int) :=
  (keyList (rows.map keyf)).map
    (fun k => (k, sumVecs ((rows.filter (fun r => keyf r == k)).map valf)))

/-- The value vector of the first record of a group (`groupby(...).first()`;
duplicates beyond the first are silently discarded). -/
def headVals {α : Type} (valf : α → List Int) : List α → List Int
  | [] => []
  | r :: _ => valf r

/-- `groupby(keys).first()` over records. -/
def groupByFirst {α : Type} (keyf : α → List String) (valf : α → List Int)
    (rows : List α) : List (List String × List Int) :=
  (keyList (rows.map keyf)).map
    (fun k => (k, headVals valf (rows.filter (fun r => keyf r == k))))

/-- `groupby(...).sum()` over an already-indexed frame, regrouped by the key
levels selected by `keyf` from each index tuple. -/
def regroupSum (keyf : List String → List String)
    (rows : List (List String × List Int)) : List (List String × List Int) :=
  groupBySum (fun r => keyf r.1) (fun r => r.2) rows

/-- `groupby(...).sum()` over a series, regrouped by the key levels selected
by `keyf` from each index tuple. -/
def seriesGroupSum (keyf : List String → List String)
    (s : List (List String × Int)) : List (List String × Int) :=
  (keyList (s.map (fun e => keyf e.1))).map
    (fun k => (k, ((s.filter (fun e => keyf e.1 == k)).map (fun e => e.2)).foldr (· + ·) 0))

/-- `.loc[cs]` on the first index level: raises `KeyError` when one of the
requested labels is absent, otherwise selects all matching rows, reordered
into the order of `cs`. -/
def locLevel0 (cs : List String) (rows : List (List String × List Int)) :
    Except String (List (List String × List Int)) :=
  if cs.all (fun c => rows.any (fun r => r.1.headD "" == c)) then
    .ok (catMap (fun c => rows.filter (fun r => r.1.headD "" == c)) cs)
  else
    .error "KeyError"

/-- `df.stack()`: one series entry per (row, column) pair, the column label
appended as a new innermost index level.  After `fillna(0)` no cell is NaN,
so no entry is dropped. -/
def stackEntries (matCols : List String) (rows : List (List String × List Int)) :
    List (List String × Int) :=
  catMap (fun r => (List.range matCols.length).map
    (fun j => (r.1 ++ [matCols.getD j ""], r.2.getD j 0))) rows

/-- The cell of an unstacked frame at row key `k` and column `c`: the series
value whose index tuple erases to `k` at the unstacked level and carries `c`
there, else the `fill_value` 0. -/
def unstackCell (s : List (List String × Int)) (lvl : Nat) (k : List String)
    (c : String) : Int :=
  match s.filter (fun e => e.1.eraseIdx lvl == k && e.1.getD lvl "" == c) with
  | [] => 0
  | e :: _ => e.2

/-- `series.unstack(level=lvl, fill_value=0)`: the distinct labels of level
`lvl` become the columns, the remaining levels (there are `n` of them) the
row index. -/
def unstackLevel (n : Nat) (lvl : Nat) (s : List (List String × Int)) : MTable :=
  ⟨n,
   keyList (s.map (fun e => e.1.getD lvl "")),
   (keyList (s.map (fun e => e.1.eraseIdx lvl))).map
     (fun k => (k, (keyList (s.map (fun e => e.1.getD lvl ""))).map
       (fun c => unstackCell s lvl k c)))⟩

/-- Lines 27-30, the `emissions_year` table before renaming: group the
emissions records by (Country, Scenario, Year) and sum the material columns
(the non-numeric `tech` column is a dropped nuisance column), select the five
configured countries, stack the material columns and unstack the Year level.
Result: index (Country, Scenario, Mat), columns = years. -/
def df_ey (e : EmCSV) : Except String MTable :=
  let grouped := groupBySum (fun r => [r.country, r.scenario, r.year])
    (fun r => r.vals) e.rows
  (locLevel0 countries grouped).map
    (fun rows => unstackLevel 3 2 (stackEntries e.matCols rows))

/-- Lines 33-38: group the emissions records by (Country, Scenario, Year,
Tech) taking the first record per key, select the configured countries; from
that frame derive `emissions_tech` (regrouped by (Country, Scenario, Tech),
summed, stacked and unstacked at the Tech level; index (Country, Scenario,
Mat), columns = techs) and `emissions_mat` (regrouped by (Country, Scenario),
summed; index (Country, Scenario), columns = material columns). -/
def df_etm (e : EmCSV) : Except String (MTable × MTable) :=
  let grouped := groupByFirst (fun r => [r.country, r.scenario, r.year, r.tech])
    (fun r => r.vals) e.rows
  (locLevel0 countries grouped).map
    (fun rows =>
      (unstackLevel 3 2 (stackEntries e.matCols
         (regroupSum (fun k => [k.getD 0 "", k.getD 1 "", k.getD 3 ""]) rows)),
       ⟨2, e.matCols, regroupSum (fun k => k.take 2) rows⟩))

/-- Lines 48-50: keep only the rows whose `parameter` is
"Power Generation Capacity (Aggregate)" and whose `Indicator` is not
"Capacity". -/
def jobs_filter (rows : List JRow) : List JRow :=
  (rows.filter (fun r => r.parameter == "Power Generation Capacity (Aggregate)")).filter
    (fun r => r.indicator != "Capacity")

/-- Lines 48-54, the jobs series: filter, group by (Country, Scenario, Year,
Tech, Indicator) taking the first record, select the four non-UK configured
countries, and collapse the single remaining column into a series. -/
def df_j_series (rows : List JRow) : Except String (List (List String × Int)) :=
  let grouped := groupByFirst
    (fun r => [r.country, r.scenario, r.year, r.tech, r.indicator])
    (fun r => [r.value]) (jobs_filter rows)
  (locLevel0 countries_alt grouped).map
    (fun l => l.map (fun r => (r.1, r.2.headD 0)))

/-- Line 55, `jobs_year_full`: unstack the Year level; index (Country,
Scenario, Tech, Indicator), columns = years. -/
def df_jyf (s : List (List String × Int)) : MTable := unstackLevel 4 2 s

/-- Line 56, `jobs_year`: regroup by (Country, Scenario, Year, Tech), sum,
unstack Year; index (Country, Scenario, Tech), columns = years. -/
def df_jy (s : List (List String × Int)) : MTable :=
  unstackLevel 3 2 (seriesGroupSum (fun k => k.take 4) s)

/-- Line 58, `jobs_tech`: regroup by (Country, Scenario, Indicator, Tech),
sum, unstack Tech; index (Country, Scenario, Indicator), columns = techs. -/
def df_jt (s : List (List String × Int)) : MTable :=
  unstackLevel 3 3 (seriesGroupSum
    (fun k => [k.getD 0 "", k.getD 1 "", k.getD 4 "", k.getD 3 ""]) s)

/-- Line 59, `jobs_ind`: regroup by (Country, Scenario, Indicator), sum,
unstack Indicator; index (Country, Scenario), columns = indicators. -/
def df_ji (s : List (List String × Int)) : MTable :=
  unstackLevel 2 2 (seriesGroupSum
    (fun k => [k.getD 0 "", k.getD 1 "", k.getD 4 ""]) s)

/-- The seven named output tables of `load_dfs` (lines 62-70). -/
structure Res where
  emissions_year : MTable
  emissions_tech : MTable
  emissions_mat : MTable
  jobs_year : MTable
  jobs_year_full : MTable
  jobs_tech : MTable
  jobs_ind : MTable

/-- `load_dfs` (lines 9-75): build the seven aggregated tables and rename
the index labels of every one of them with `rename_dict` (lines 72-73).
A `KeyError` from any `.loc[...]` lookup propagates. -/
def load_dfs (e : EmCSV) (j : List JRow) : Except String Res := do
  let ey ← df_ey e
  let etm ← df_etm e
  let s ← df_j_series j
  .ok ⟨renameIndex ey, renameIndex etm.1, renameIndex etm.2,
       renameIndex (df_jy s), renameIndex (df_jyf s),
       renameIndex (df_jt s), renameIndex (df_ji s)⟩

/-- Placeholder table, used only to destructure `Except` results. -/
def defaultMTable : MTable := ⟨0, [], []⟩

/-- Extract the result of a successful `load_dfs` run. -/
def exGetRes : Except String Res → Res
  | .ok r => r
  | .error _ => ⟨defaultMTable, defaultMTable, defaultMTable, defaultMTable,
                 defaultMTable, defaultMTable, defaultMTable⟩

/-- Whether an `Except` computation succeeded. -/
def exIsOk {ε α : Type} : Except ε α → Bool
  | .ok _ => true
  | .error _ => false

/-- The distinct labels of the outermost (Country) index level of a table,
in order of appearance. -/
def countryLevel (t : MTable) : List String :=
  keyList (t.rows.map (fun r => r.1.headD ""))

/-- `Blocked cs hd l`: the list `l` is a concatenation of one nonempty block
per entry of `cs`, in order, each block containing only elements whose head
label (under `hd`) is that entry.  This is the shape `.loc[cs]` produces and
every later pipeline stage preserves. -/
def Blocked {α : Type} (cs : List String) (hd : α → String) (l : List α) : Prop :=
  ∃ f, l = catMap f cs ∧ ∀ c ∈ cs, f c ≠ [] ∧ ∀ x ∈ f c, hd x = c

/-- Concrete emissions CSV for the end-to-end scenario of the spec: one
material column `Steel`; Kenya/Base has value 5 in 2020 and 0 in 2021, and
every other configured country has one record so that `.loc[countries]`
succeeds. -/
def eC2 : EmCSV :=
  ⟨["Steel"],
   [⟨"KE", "Base", "2020", "T1", [5]⟩,
    ⟨"KE", "Base", "2021", "T1", [0]⟩,
    ⟨"RW", "Base", "2020", "T1", [1]⟩,
    ⟨"UG", "Base", "2020", "T1", [1]⟩,
    ⟨"UK", "Base", "2020", "T1", [1]⟩,
    ⟨"ZM", "Base", "2020", "T1", [1]⟩]⟩

/-- Concrete jobs CSV records: one valid record per non-UK configured
country, so that `.loc[countries_alt]` succeeds. -/
def jC2 : List JRow :=
  [⟨"KE", "Base", "Wind", "Power Generation Capacity (Aggregate)", "Direct", "2020", 3⟩,
   ⟨"RW", "Base", "Wind", "Power Generation Capacity (Aggregate)", "Direct", "2020", 3⟩,
   ⟨"UG", "Base", "Wind", "Power Generation Capacity (Aggregate)", "Direct", "2020", 3⟩,
   ⟨"ZM", "Base", "Wind", "Power Generation Capacity (Aggregate)", "Direct", "2020", 3⟩]

/-- Emissions CSV with no record for `ZM`, used to exercise the hard-failure
branch of `.loc[countries]`. -/
def eBad : EmCSV :=
  ⟨["Steel"],
   [⟨"KE", "Base", "2020", "T1", [5]⟩,
    ⟨"RW", "Base", "2020", "T1", [1]⟩,
    ⟨"UG", "Base", "2020", "T1", [1]⟩,
    ⟨"UK", "Base", "2020", "T1", [1]⟩]⟩

theorem mem_keyList {α : Type} [DecidableEq α] {a : α} {l : List α} :
    a ∈ keyList l ↔ a ∈ l := by
  induction l with
  | nil => simp [keyList]
  | cons b t ih =>
      simp only [keyList, List.mem_cons, List.mem_filter, ih, decide_eq_true_eq]
      by_cases hab : a = b <;> tauto

theorem getD_ne_zero {l : List Int} {j : Nat} (h : l.getD j 0 ≠ 0) :
    ∃ hj : j < l.length, l[j] ≠ 0 := by
  by_cases hj : j < l.length
  · exact ⟨hj, by rwa [List.getD_eq_getElem _ _ hj] at h⟩
  · rw [List.getD_eq_default _ _ (Nat.le_of_not_lt hj)] at h
    exact absurd rfl h

theorem anyNZ_iff {l : List Int} :
    (l.any (fun v => v != 0)) = true ↔ ∃ j, ∃ hj : j < l.length, l[j] ≠ 0 := by
  rw [List.any_eq_true]
  constructor
  · rintro ⟨x, hx, hne⟩
    obtain ⟨j, hj, he⟩ := List.mem_iff_getElem.mp hx
    exact ⟨j, hj, by rw [he]; exact bne_iff_ne.mp hne⟩
  · rintro ⟨j, hj, hne⟩
    exact ⟨l[j], List.getElem_mem hj, bne_iff_ne.mpr hne⟩

theorem map_eq_self_of {α : Type} {l : List α} {f : α → α}
    (h : ∀ a ∈ l, f a = a) : l.map f = l := by
  induction l with
  | nil => rfl
  | cons a t ih =>
      simp only [List.map_cons]
      rw [h a (by simp), ih (fun x hx => h x (List.mem_cons_of_mem a hx))]

theorem mapGetDRange {α : Type} (l : List α) (d : α) :
    (List.range l.length).map (fun i => l.getD i d) = l := by
  apply List.ext_getElem
  · simp
  · intro i h1 h2
    simp only [List.getElem_map, List.getElem_range]
    exact List.getD_eq_getElem l d h2

theorem filter_map_comm {α β : Type} (l : List α) (f : α → β) (p : α → Bool)
    (q : β → Bool) (h : ∀ a ∈ l, q (f a) = p a) :
    (l.filter p).map f = (l.map f).filter q := by
  induction l with
  | nil => rfl
  | cons a t ih =>
      have ht := ih (fun x hx => h x (List.mem_cons_of_mem a hx))
      have ha := h a (by simp)
      by_cases hp : p a = true
      · simp [List.filter_cons, List.map_cons, hp, ha, ht]
      · have hp' : p a = false := by revert hp; cases p a <;> simp
        simp [List.filter_cons, List.map_cons, hp', ha, ht]

theorem mem_keepCols {t : STable} {j : Nat} :
    j ∈ keepCols t ↔ j < t.cols.length ∧ ∃ r ∈ t.rows, r.2.getD j 0 ≠ 0 := by
  simp only [keepCols, List.mem_filter, List.mem_range, List.any_eq_true,
    bne_iff_ne]

/-- C8: for every table whose row index has more than one level, `df_to_dict`
gives the same result whatever `drop_full_zeros` argument is passed: the
recursive call on line 79 omits the flag, so the leaf level always drops
all-zero rows and columns, even when the caller passed
`drop_full_zeros=False`. -/
theorem df_to_dict_ignores_flag (t : MTable) (b1 b2 : Bool)
    (h : 2 ≤ t.nlevels) : df_to_dict t b1 = df_to_dict t b2 := by
  obtain ⟨n, cols, rows⟩ := t
  simp only [df_to_dict] at h ⊢
  cases n with
  | zero => exact absurd h (by decide)
  | succ m =>
      cases m with
      | zero => exact absurd h (by decide)
      | succ k => rfl

theorem df_to_dict_ignores_flag_witness :
    2 ≤ (MTable.mk 2 ["y"] [(["KE", "s"], [1, 0])]).nlevels ∧
    df_to_dict (MTable.mk 2 ["y"] [(["KE", "s"], [1, 0])]) false =
      df_to_dict (MTable.mk 2 ["y"] [(["KE", "s"], [1, 0])]) true :=
  ⟨by decide, df_to_dict_ignores_flag _ false true (by decide)⟩

theorem depthOkL_ofList (n : Nat) (l : List (String × NDict))
    (h : ∀ p ∈ l, depthOk n p.2) : depthOkL n (NList.ofList l) := by
  induction l with
  | nil => simp [NList.ofList, depthOkL]
  | cons p t ih =>
      simp only [NList.ofList, depthOkL]
      exact ⟨h p (by simp), ih (fun x hx => h x (List.mem_cons_of_mem p hx))⟩

theorem dfToDictGo_depth :
    ∀ (n : Nat) (cols : List String) (rows : List (List String × List Int))
      (dz : Bool), depthOk (n - 1) (dfToDictGo n cols rows dz) := by
  intro n
  induction n using Nat.strong_induction_on with
  | _ n ih =>
      intro cols rows dz
      match n with
      | 0 => simp [dfToDictGo, depthOk]
      | 1 => simp [dfToDictGo, depthOk]
      | m + 2 =>
          simp only [dfToDictGo, Nat.add_sub_cancel, depthOk]
          apply depthOkL_ofList
          intro p hp
          obtain ⟨k, _, hk⟩ := List.mem_map.mp hp
          have := ih (m + 1) (by omega) cols (groupRows k rows) true
          simpa [← hk] using this

/-- C5: for a table whose row labels have `n > 0` levels, `df_to_dict`
produces `n - 1` outer dictionary levels (one per stripped index level) and
terminates in a leaf mapping the last index level's values to maps from
column labels to cell values. -/
theorem df_to_dict_depth (t : MTable) (dz : Bool) (h : 0 < t.nlevels) :
    depthOk (t.nlevels - 1) (df_to_dict t dz) :=
  dfToDictGo_depth t.nlevels t.cols t.rows dz

theorem df_to_dict_depth_witness :
    0 < (MTable.mk 3 ["2020"] [(["KE", "Base", "Steel"], [5])]).nlevels ∧
    depthOk ((MTable.mk 3 ["2020"] [(["KE", "Base", "Steel"], [5])]).nlevels - 1)
      (df_to_dict (MTable.mk 3 ["2020"] [(["KE", "Base", "Steel"], [5])]) true) :=
  ⟨by decide, df_to_dict_depth _ true (by decide)⟩

/-- C7: the renaming of lines 72-73 is a pure relabeling: it keeps the level
count, the column labels, the number of rows, and the exact sequence of cell
vectors (hence the multiset of cell values) of every table it is applied to —
in `load_dfs` it is applied to each of the seven output tables. -/
theorem renameIndex_pure (t : MTable) :
    (renameIndex t).nlevels = t.nlevels ∧ (renameIndex t).cols = t.cols ∧
    (renameIndex t).rows.length = t.rows.length ∧
    (renameIndex t).rows.map (fun r => r.2) = t.rows.map (fun r => r.2) :=
  ⟨rfl, rfl, by simp [renameIndex], by simp [renameIndex, List.map_map]⟩

/-- C10: the renaming applies to every row-index level, not only the Country
level: a label at any position `i` of any row's index tuple that is one of
the five configured codes is rewritten to the corresponding full name. -/
theorem rename_applies_to_all_levels (t : MTable) (r : List String × List Int)
    (hr : r ∈ t.rows) (i : Nat) (hc : r.1.getD i "" ∈ countries) :
    ∃ r' ∈ (renameIndex t).rows, r'.2 = r.2 ∧
      r'.1.getD i "" = renameLabel rename_dict (r.1.getD i "") := by
  refine ⟨(r.1.map (renameLabel rename_dict), r.2),
    List.mem_map_of_mem _ hr, rfl, ?_⟩
  have hi : i < r.1.length := by
    by_contra h
    rw [List.getD_eq_default _ _ (Nat.le_of_not_lt h)] at hc
    exact absurd hc (by decide)
  rw [List.getD_eq_getElem _ _ (by simpa using hi), List.getElem_map,
    List.getD_eq_getElem _ _ hi]

theorem rename_applies_to_all_levels_witness :
    ((["KE", "Base", "UK"], [(7 : Int)]) ∈
        (MTable.mk 3 ["c"] [(["KE", "Base", "UK"], [7])]).rows ∧
      (["KE", "Base", "UK"] : List String).getD 2 "" ∈ countries) ∧
    ∃ r' ∈ (renameIndex (MTable.mk 3 ["c"] [(["KE", "Base", "UK"], [7])])).rows,
      r'.2 = [(7 : Int)] ∧
      r'.1.getD 2 "" = renameLabel rename_dict ((["KE", "Base", "UK"] : List String).getD 2 "") :=
  ⟨⟨by decide, by decide⟩,
   rename_applies_to_all_levels (MTable.mk 3 ["c"] [(["KE", "Base", "UK"], [7])])
     (["KE", "Base", "UK"], [(7 : Int)]) (by decide) 2 (by decide)⟩

theorem STable.ext2 (a b : STable) (h1 : a.cols = b.cols) (h2 : a.rows = b.rows) :
    a = b := by
  cases a; cases b; cases h1; cases h2; rfl

theorem keep_of_cell {t : STable} {r : String × List Int} (hr : r ∈ t.rows)
    (wf : r.2.length = t.cols.length) {j : Nat} (hj : j < r.2.length)
    (hne : r.2[j] ≠ 0) : j ∈ keepCols t :=
  mem_keepCols.mpr ⟨wf ▸ hj, r, hr,
    by rw [List.getD_eq_getElem _ _ hj]; exact hne⟩

theorem trim_any_of_any {K : List Nat} {cells : List Int} {j : Nat}
    (hj : j ∈ K) (h : cells.getD j 0 ≠ 0) :
    (K.map (fun i => cells.getD i 0)).any (fun v => v != 0) = true :=
  List.any_eq_true.mpr
    ⟨cells.getD j 0, List.mem_map_of_mem _ hj, bne_iff_ne.mpr h⟩

theorem any_of_trim_any {K : List Nat} {cells : List Int}
    (h : (K.map (fun i => cells.getD i 0)).any (fun v => v != 0) = true) :
    cells.any (fun v => v != 0) = true := by
  obtain ⟨x, hx, hne⟩ := List.any_eq_true.mp h
  obtain ⟨j, _, hj⟩ := List.mem_map.mp hx
  obtain ⟨hlt, hne2⟩ := getD_ne_zero (hj ▸ bne_iff_ne.mp hne)
  exact anyNZ_iff.mpr ⟨j, hlt, hne2⟩

theorem dropZeroRows_after (t : STable) (wf : WfS t) :
    dropZeroRows (dropZeroCols (dropZeroRows t)) = dropZeroCols (dropZeroRows t) := by
  refine STable.ext2 _ _ rfl ?_
  show (dropZeroCols (dropZeroRows t)).rows.filter _ = (dropZeroCols (dropZeroRows t)).rows
  apply List.filter_eq_self.mpr
  intro r' hr'
  obtain ⟨r, hr, he⟩ := List.mem_map.mp hr'
  obtain ⟨hrt, hany⟩ := List.mem_filter.mp hr
  obtain ⟨j, hj, hne⟩ := anyNZ_iff.mp hany
  have hjK : j ∈ keepCols (dropZeroRows t) :=
    keep_of_cell hr (wf r hrt) hj hne
  have : r.2.getD j 0 ≠ 0 := by
    rw [List.getD_eq_getElem _ _ hj]; exact hne
  rw [← he]
  exact trim_any_of_any hjK this

theorem keepCols_after (t : STable) (wf : WfS t) :
    keepCols (dropZeroCols (dropZeroRows t)) =
      List.range (dropZeroCols (dropZeroRows t)).cols.length := by
  show List.filter _ _ = _
  apply List.filter_eq_self.mpr
  intro j' hj'
  have hlen : (dropZeroCols (dropZeroRows t)).cols.length =
      (keepCols (dropZeroRows t)).length := by
    simp [dropZeroCols]
  have hj'2 : j' < (keepCols (dropZeroRows t)).length := by
    rw [← hlen]; exact List.mem_range.mp hj'
  set K := keepCols (dropZeroRows t) with hK
  have hjK : K[j'] ∈ K := List.getElem_mem hj'2
  obtain ⟨hjc, r, hr, hgd⟩ := mem_keepCols.mp hjK
  apply List.any_eq_true.mpr
  refine ⟨(r.1, K.map (fun i => r.2.getD i 0)), List.mem_map_of_mem _ hr, ?_⟩
  apply bne_iff_ne.mpr
  have hml : j' < (K.map (fun i => r.2.getD i 0)).length := by simpa using hj'2
  rw [List.getD_eq_getElem _ _ hml, List.getElem_map]
  exact hgd

/-- C6: the leaf-level zero filter of lines 81-83 is idempotent — applying
the all-zero-row drop followed by the all-zero-column drop to a table that
has already been filtered this way returns it unchanged. -/
theorem zero_filter_idem (t : STable) (wf : WfS t) :
    dropZeroCols (dropZeroRows (dropZeroCols (dropZeroRows t))) =
      dropZeroCols (dropZeroRows t) := by
  rw [dropZeroRows_after t wf]
  have hK := keepCols_after t wf
  apply STable.ext2
  · show (keepCols (dropZeroCols (dropZeroRows t))).map _ = _
    rw [hK]
    exact mapGetDRange _ ""
  · show (dropZeroCols (dropZeroRows t)).rows.map _ =
      (dropZeroCols (dropZeroRows t)).rows
    apply map_eq_self_of
    intro r hr
    have hrl : r.2.length = (dropZeroCols (dropZeroRows t)).cols.length := by
      obtain ⟨r0, _, he⟩ := List.mem_map.mp hr
      rw [← he]
      simp [dropZeroCols]
    rw [hK, ← hrl, mapGetDRange r.2 0]

theorem zero_filter_idem_witness :
    WfS ⟨["a", "b"], [("r1", [1, 0]), ("r2", [0, 0])]⟩ ∧
    dropZeroCols (dropZeroRows (dropZeroCols (dropZeroRows
        ⟨["a", "b"], [("r1", [1, 0]), ("r2", [0, 0])]⟩))) =
      dropZeroCols (dropZeroRows ⟨["a", "b"], [("r1", [1, 0]), ("r2", [0, 0])]⟩) :=
  ⟨by unfold WfS; decide, zero_filter_idem _ (by unfold WfS; decide)⟩

theorem keepCols_dropZeroRows (t : STable) :
    keepCols (dropZeroRows t) = keepCols t := by
  apply List.filter_congr
  intro j hj
  apply Bool.eq_iff_iff.mpr
  constructor
  · intro h
    obtain ⟨r, hr, hne⟩ := List.any_eq_true.mp h
    exact List.any_eq_true.mpr ⟨r, List.mem_of_mem_filter hr, hne⟩
  · intro h
    obtain ⟨r, hr, hne⟩ := List.any_eq_true.mp h
    have hne' := bne_iff_ne.mp hne
    obtain ⟨hlt, hne2⟩ := getD_ne_zero hne'
    refine List.any_eq_true.mpr ⟨r, ?_, hne⟩
    exact List.mem_filter.mpr ⟨hr, anyNZ_iff.mpr ⟨j, hlt, hne2⟩⟩

/-- C9: the two passes of the leaf-level zero filter commute — dropping
all-zero rows and then all-zero columns yields the same table as dropping
all-zero columns first and then all-zero rows, because a dropped row
contributes only zeros to every column. -/
theorem zero_filter_comm (t : STable) (wf : WfS t) :
    dropZeroCols (dropZeroRows t) = dropZeroRows (dropZeroCols t) := by
  apply STable.ext2
  · show (keepCols (dropZeroRows t)).map _ = (keepCols t).map _
    rw [keepCols_dropZeroRows t]
    rfl
  · show (List.filter _ t.rows).map _ = List.filter _ (t.rows.map _)
    rw [keepCols_dropZeroRows t]
    apply filter_map_comm
    intro r hr
    apply Bool.eq_iff_iff.mpr
    constructor
    · exact any_of_trim_any
    · intro h
      obtain ⟨j, hj, hne⟩ := anyNZ_iff.mp h
      have hjK : j ∈ keepCols t := keep_of_cell hr (wf r hr) hj hne
      exact trim_any_of_any hjK
        (by rw [List.getD_eq_getElem _ _ hj]; exact hne)

theorem zero_filter_comm_witness :
    WfS ⟨["x", "y"], [("u", [0, 0]), ("v", [0, 3])]⟩ ∧
    dropZeroCols (dropZeroRows ⟨["x", "y"], [("u", [0, 0]), ("v", [0, 3])]⟩) =
      dropZeroRows (dropZeroCols ⟨["x", "y"], [("u", [0, 0]), ("v", [0, 3])]⟩) :=
  ⟨by unfold WfS; decide, zero_filter_comm _ (by unfold WfS; decide)⟩

theorem wfS_leafTable (cols : List String) (rows : List (List String × List Int))
    (wf : ∀ r ∈ rows, r.2.length = cols.length) : WfS (leafTable cols rows) := by
  intro r hr
  obtain ⟨r0, hr0, he⟩ := List.mem_map.mp hr
  rw [← he]
  exact wf r0 hr0

theorem leafSup_drop (st : STable) (wf : WfS st) :
    LeafSup (toDict st) (toDict (dropZeroCols (dropZeroRows st))) := by
  constructor
  · intro p hp
    obtain ⟨r', hr', he⟩ := List.mem_map.mp hp
    obtain ⟨r, hr, he2⟩ := List.mem_map.mp hr'
    have hrt : r ∈ st.rows := List.mem_of_mem_filter hr
    have hrlen : r.2.length = st.cols.length := wf r hrt
    refine ⟨(r.1, st.cols.zip r.2), List.mem_map_of_mem _ hrt, ?_, ?_, ?_⟩
    · rw [← he, ← he2]
    · intro c hc
      rw [← he, ← he2] at hc
      have hc' : c ∈ ((keepCols (dropZeroRows st)).map (fun j => st.cols.getD j "")).zip
          ((keepCols (dropZeroRows st)).map (fun j => r.2.getD j 0)) := hc
      rw [List.zip_map'] at hc'
      obtain ⟨j, hjK, hpair⟩ := List.mem_map.mp hc'
      have hj1 : j < st.cols.length := (mem_keepCols.mp hjK).1
      have hj2 : j < r.2.length := by omega
      have hlz : j < (st.cols.zip r.2).length := by
        rw [List.length_zip]; omega
      rw [← hpair, List.getD_eq_getElem _ _ hj1, List.getD_eq_getElem _ _ hj2]
      have hze : (st.cols.zip r.2)[j] = (st.cols[j], r.2[j]) := List.getElem_zip
      rw [← hze]
      exact List.getElem_mem hlz
    · intro c hc
      obtain ⟨i, hi, hie⟩ := List.mem_iff_getElem.mp hc
      have hi1 : i < st.cols.length := by rw [List.length_zip] at hi; omega
      have hi2 : i < r.2.length := by rw [List.length_zip] at hi; omega
      have hc2 : c = (st.cols[i], r.2[i]) := by
        rw [← hie]; exact List.getElem_zip
      by_cases hz : r.2[i] = 0
      · right; rw [hc2]; exact hz
      · left
        have hiK : i ∈ keepCols (dropZeroRows st) :=
          keep_of_cell hr hrlen hi2 hz
        have hmem : (st.cols.getD i "", r.2.getD i 0) ∈
            List.map (fun j => (st.cols.getD j "", r.2.getD j 0))
              (keepCols (dropZeroRows st)) :=
          List.mem_map_of_mem _ hiK
        rw [List.getD_eq_getElem _ _ hi1, List.getD_eq_getElem _ _ hi2] at hmem
        rw [hc2, ← he, ← he2]
        show (st.cols[i], r.2[i]) ∈
          ((keepCols (dropZeroRows st)).map (fun j => st.cols.getD j "")).zip
            ((keepCols (dropZeroRows st)).map (fun j => r.2.getD j 0))
        rw [List.zip_map']
        exact hmem
  · intro q hq
    obtain ⟨r, hrt, he⟩ := List.mem_map.mp hq
    by_cases hb : r.2.any (fun v => v != 0) = true
    · left
      have hr1 : r ∈ (dropZeroRows st).rows := List.mem_filter.mpr ⟨hrt, hb⟩
      have h1 : (r.1, (keepCols (dropZeroRows st)).map (fun j => r.2.getD j 0)) ∈
          (dropZeroCols (dropZeroRows st)).rows :=
        List.mem_map_of_mem _ hr1
      have h2 := List.mem_map_of_mem
        (fun r2 => (r2.1, (dropZeroCols (dropZeroRows st)).cols.zip r2.2)) h1
      exact ⟨_, h2, by rw [← he]⟩
    · right
      intro c hc
      rw [← he] at hc
      obtain ⟨i, hi, hie⟩ := List.mem_iff_getElem.mp hc
      have hi2 : i < r.2.length := by rw [List.length_zip] at hi; omega
      have hcv : c.2 = r.2[i] := by
        rw [← hie, List.getElem_zip]
      rw [hcv]
      by_contra hnz
      exact hb (anyNZ_iff.mpr ⟨i, hi2, hnz⟩)

/-- C1: for every table, serializing with `preserve_zeros=true` (that is,
`df_to_dict` with `drop_full_zeros=False`) dominates the
`preserve_zeros=false` result: the nested structures have identical keys,
and each leaf of the former is a row- and column-wise superset of the
corresponding leaf of the latter, differing only by all-zero rows and by
cells of dropped all-zero columns, with all common cells equal.  (For a
multi-level index the two results coincide, because the recursion drops the
flag; for a single-level index the flag is honoured and the superset is
proper whenever zero rows/columns exist.) -/
theorem df_to_dict_preserve_sup (t : MTable) (wf : Wf t) :
    NSup (df_to_dict t false) (df_to_dict t true) := by
  obtain ⟨n, cols, rows⟩ := t
  have wf' : ∀ r ∈ rows, r.2.length = cols.length := wf
  cases n with
  | zero =>
      show LeafSup (mkLeaf cols rows false) (mkLeaf cols rows true)
      exact leafSup_drop (leafTable cols rows) (wfS_leafTable cols rows wf')
  | succ m =>
      cases m with
      | zero =>
          show LeafSup (mkLeaf cols rows false) (mkLeaf cols rows true)
          exact leafSup_drop (leafTable cols rows) (wfS_leafTable cols rows wf')
      | succ k => exact nsupRefl _

theorem df_to_dict_preserve_sup_witness :
    Wf ⟨1, ["a", "b"], [(["r1"], [1, 0]), (["r2"], [0, 0])]⟩ ∧
    NSup (df_to_dict ⟨1, ["a", "b"], [(["r1"], [1, 0]), (["r2"], [0, 0])]⟩ false)
      (df_to_dict ⟨1, ["a", "b"], [(["r1"], [1, 0]), (["r2"], [0, 0])]⟩ true) :=
  ⟨by unfold Wf; decide,
   df_to_dict_preserve_sup _ (by unfold Wf; decide)⟩

/-- C4: a jobs input row whose `Indicator` is `"Capacity"`, or whose
`parameter` differs from `"Power Generation Capacity (Aggregate)"`, is
excluded from all four jobs output tables (`jobs_year`, `jobs_year_full`,
`jobs_tech`, `jobs_ind`), regardless of its other fields and of its position:
the entire `load_dfs` result is unchanged when the row is removed. -/
theorem jobs_row_excluded (e : EmCSV) (l1 l2 : List JRow) (r : JRow)
    (h : r.indicator = "Capacity" ∨
      r.parameter ≠ "Power Generation Capacity (Aggregate)") :
    load_dfs e (l1 ++ r :: l2) = load_dfs e (l1 ++ l2) := by
  have hpred : ((r.indicator != "Capacity") &&
      (r.parameter == "Power Generation Capacity (Aggregate)")) = false := by
    rcases h with h | h
    · rw [h]
      simp
    · have hp : (r.parameter == "Power Generation Capacity (Aggregate)") = false :=
        beq_eq_false_iff_ne.mpr h
      rw [hp, Bool.and_false]
  have hfil : jobs_filter (l1 ++ r :: l2) = jobs_filter (l1 ++ l2) := by
    unfold jobs_filter
    rw [List.filter_filter, List.filter_filter, List.filter_append,
      List.filter_append, List.filter_cons, hpred]
    simp
  have hs : df_j_series (l1 ++ r :: l2) = df_j_series (l1 ++ l2) := by
    unfold df_j_series
    rw [hfil]
  simp only [load_dfs, hs]

/-- C2: end-to-end scenario on the emissions CSV of the spec (Kenya/Base has
Steel = 5 in 2020 and Steel = 0 in 2021, all five configured countries
present).  With zero-dropping enabled the serialized `emissions_year` maps
Kenya → Base → Steel to `{2020: 5}`, as the claim states.  With
`preserve_zeros` set (i.e. `drop_full_zeros=False`) the claim expects
`{2020: 5, 2021: 0}`, but the code still yields `{2020: 5}`: the recursive
call on line 79 omits `drop_full_zeros`, so for the multi-level
`emissions_year` table the flag is dead and the all-zero 2021 column is
dropped regardless.  The flag exists precisely to disable that dropping
(`main` passes `not preserve_zeros`), so this is a code bug, not a spec
error. -/
theorem emissions_year_preserve_zeros_bug :
    dig3 (df_to_dict (exGetRes (load_dfs eC2 jC2)).emissions_year true)
        "Kenya" "Base" "Steel" = some [("2020", 5)] ∧
    dig3 (df_to_dict (exGetRes (load_dfs eC2 jC2)).emissions_year false)
        "Kenya" "Base" "Steel" = some [("2020", 5)] ∧
    dig3 (df_to_dict (exGetRes (load_dfs eC2 jC2)).emissions_year false)
        "Kenya" "Base" "Steel" ≠ some [("2020", 5), ("2021", 0)] :=
  ⟨by decide, by decide, by decide⟩

theorem mem_catMap {α β : Type} {f : α → List β} {cs : List α} {x : β} :
    x ∈ catMap f cs ↔ ∃ c ∈ cs, x ∈ f c := by
  induction cs with
  | nil => simp [catMap]
  | cons a t ih => simp [catMap, List.mem_append, ih]

theorem catMap_map {α β γ : Type} (f : α → List β) (g : β → γ) (cs : List α) :
    (catMap f cs).map g = catMap (fun c => (f c).map g) cs := by
  induction cs with
  | nil => rfl
  | cons a t ih => simp [catMap, List.map_append, ih]

theorem catMap_append {α β : Type} (E : α → List β) (l1 l2 : List α) :
    catMap E (l1 ++ l2) = catMap E l1 ++ catMap E l2 := by
  induction l1 with
  | nil => rfl
  | cons a t ih => simp [catMap, ih, List.append_assoc]

theorem catMap_catMap {α β γ : Type} (f : α → List β) (E : β → List γ)
    (cs : List α) :
    catMap E (catMap f cs) = catMap (fun c => catMap E (f c)) cs := by
  induction cs with
  | nil => rfl
  | cons a t ih => simp [catMap, catMap_append, ih]

theorem keyList_ne_nil {α : Type} [DecidableEq α] {l : List α} (h : l ≠ []) :
    keyList l ≠ [] := by
  cases l with
  | nil => exact absurd rfl h
  | cons a t => simp [keyList]

theorem keyList_const {α : Type} [DecidableEq α] :
    ∀ {B : List α} {c : α}, (∀ x ∈ B, x = c) → B ≠ [] → keyList B = [c] := by
  intro B
  induction B with
  | nil => intro c _ h; exact absurd rfl h
  | cons a t ih =>
      intro c h _
      have ha : a = c := h a (by simp)
      cases t with
      | nil => simp [keyList, ha]
      | cons b t' =>
          have ht : keyList (b :: t') = [c] :=
            ih (fun x hx => h x (List.mem_cons_of_mem a hx)) (by simp)
          rw [keyList, ht, ha]
          simp

theorem keyList_append_disjoint {α : Type} [DecidableEq α] {l1 l2 : List α}
    (h : ∀ x ∈ l1, ∀ y ∈ l2, x ≠ y) :
    keyList (l1 ++ l2) = keyList l1 ++ keyList l2 := by
  induction l1 with
  | nil => rfl
  | cons a t ih =>
      show keyList (a :: (t ++ l2)) = _
      rw [keyList, ih (fun x hx => h x (List.mem_cons_of_mem a hx)), keyList,
        List.filter_append]
      have h2 : (keyList l2).filter (fun x => x ≠ a) = keyList l2 := by
        apply List.filter_eq_self.mpr
        intro y hy
        exact decide_eq_true (fun he => h a (by simp) y (mem_keyList.mp hy) he.symm)
      rw [h2]
      simp

theorem keyList_map_inj {α β : Type} [DecidableEq α] [DecidableEq β]
    {l : List α} {f : α → β}
    (hinj : ∀ a ∈ l, ∀ b ∈ l, f a = f b → a = b) :
    keyList (l.map f) = (keyList l).map f := by
  induction l with
  | nil => rfl
  | cons a t ih =>
      show keyList (f a :: t.map f) = _
      rw [keyList, keyList,
        ih (fun x hx y hy => hinj x (List.mem_cons_of_mem a hx) y
          (List.mem_cons_of_mem a hy)),
        List.map_cons,
        filter_map_comm (keyList t) f (fun x => x ≠ a) (fun x => x ≠ f a) ?_]
      intro x hx
      apply decide_eq_decide.mpr
      constructor
      · intro hne he; exact hne (congrArg f he)
      · intro hne he
        exact hne (hinj x (List.mem_cons_of_mem a (mem_keyList.mp hx)) a
          (by simp) he)

theorem blocked_hd_mem {α : Type} {cs : List String} {hd : α → String}
    {l : List α} (hB : Blocked cs hd l) : ∀ x ∈ l, hd x ∈ cs := by
  obtain ⟨f, rfl, hf⟩ := hB
  intro x hx
  obtain ⟨c, hc, hxc⟩ := mem_catMap.mp hx
  rw [(hf c hc).2 x hxc]
  exact hc

theorem blocked_map {α β : Type} {cs : List String} {hd : α → String}
    {hd2 : β → String} {l : List α} (hB : Blocked cs hd l) (G : α → β)
    (hG : ∀ x ∈ l, hd x ∈ cs → hd2 (G x) = hd x) :
    Blocked cs hd2 (l.map G) := by
  obtain ⟨f, rfl, hf⟩ := hB
  refine ⟨fun c => (f c).map G, catMap_map f G cs, fun c hc => ⟨?_, ?_⟩⟩
  · intro hnil
    exact (hf c hc).1 (List.map_eq_nil_iff.mp hnil)
  · intro y hy
    obtain ⟨x, hx, he⟩ := List.mem_map.mp hy
    have hxl : x ∈ catMap f cs := mem_catMap.mpr ⟨c, hc, hx⟩
    rw [← he, hG x hxl (by rw [(hf c hc).2 x hx]; exact hc), (hf c hc).2 x hx]

theorem keyList_catMap_blocks {α : Type} [DecidableEq α] (hd : α → String) :
    ∀ (cs : List String) (f : String → List α), cs.Nodup →
      (∀ c ∈ cs, ∀ x ∈ f c, hd x = c) →
      keyList (catMap f cs) = catMap (fun c => keyList (f c)) cs := by
  intro cs
  induction cs with
  | nil => intro f _ _; rfl
  | cons c cs' ih =>
      intro f hnd hf
      show keyList (f c ++ catMap f cs') = keyList (f c) ++ _
      rw [keyList_append_disjoint, ih f (List.nodup_cons.mp hnd).2
        (fun c2 hc2 x hx => hf c2 (List.mem_cons_of_mem c hc2) x hx)]
      intro x hx y hy
      obtain ⟨c', hc', hyc⟩ := mem_catMap.mp hy
      intro he
      have h1 : hd x = c := hf c (by simp) x hx
      have h2 : hd y = c' := hf c' (List.mem_cons_of_mem c hc') y hyc
      rw [he, h2] at h1
      exact (List.nodup_cons.mp hnd).1 (h1 ▸ hc')

theorem blocked_keyList {α : Type} [DecidableEq α] {cs : List String}
    {hd : α → String} {l : List α} (hB : Blocked cs hd l) (hnd : cs.Nodup) :
    Blocked cs hd (keyList l) := by
  obtain ⟨f, rfl, hf⟩ := hB
  refine ⟨fun c => keyList (f c),
    keyList_catMap_blocks hd cs f hnd (fun c hc => (hf c hc).2),
    fun c hc => ⟨keyList_ne_nil (hf c hc).1,
      fun x hx => (hf c hc).2 x (mem_keyList.mp hx)⟩⟩

theorem blocked_catMap {α β : Type} {cs : List String} {hd : α → String}
    {hd2 : β → String} {l : List α} (hB : Blocked cs hd l) (E : α → List β)
    (hE : ∀ x ∈ l, hd x ∈ cs → (E x ≠ [] ∧ ∀ y ∈ E x, hd2 y = hd x)) :
    Blocked cs hd2 (catMap E l) := by
  obtain ⟨f, rfl, hf⟩ := hB
  refine ⟨fun c => catMap E (f c), catMap_catMap f E cs, fun c hc => ⟨?_, ?_⟩⟩
  · obtain ⟨x, t, he⟩ : ∃ x t, f c = x :: t := by
      cases hfc : f c with
      | nil => exact absurd hfc (hf c hc).1
      | cons x t => exact ⟨x, t, rfl⟩
    show catMap E (f c) ≠ []
    rw [he]
    show E x ++ catMap E t ≠ []
    have hx : x ∈ catMap f cs := mem_catMap.mpr ⟨c, hc, by rw [he]; simp⟩
    have hEx := (hE x hx (by rw [(hf c hc).2 x (by rw [he]; simp)]; exact hc)).1
    cases hE2 : E x with
    | nil => exact absurd hE2 hEx
    | cons y t2 => simp
  · intro y hy
    obtain ⟨x, hx, hyx⟩ := mem_catMap.mp hy
    have hxl : x ∈ catMap f cs := mem_catMap.mpr ⟨c, hc, hx⟩
    have hhd : hd x = c := (hf c hc).2 x hx
    rw [(hE x hxl (by rw [hhd]; exact hc)).2 y hyx, hhd]

theorem blocked_keyed {α β : Type} [DecidableEq β] {cs : List String}
    {hd : α → String} {hd2 : β → String} {l : List α} (hB : Blocked cs hd l)
    (hnd : cs.Nodup) (F : α → β)
    (hF : ∀ x ∈ l, hd x ∈ cs → hd2 (F x) = hd x) :
    Blocked cs hd2 (keyList (l.map F)) :=
  blocked_keyList (blocked_map hB F hF) hnd

theorem keyList_catMap_const :
    ∀ (cs : List String) (g : String → List String), cs.Nodup →
      (∀ c ∈ cs, g c ≠ [] ∧ ∀ x ∈ g c, x = c) → keyList (catMap g cs) = cs := by
  intro cs
  induction cs with
  | nil => intro g _ _; rfl
  | cons c cs' ih =>
      intro g hnd hg
      show keyList (g c ++ catMap g cs') = c :: cs'
      rw [keyList_append_disjoint, keyList_const (hg c (by simp)).2
        (hg c (by simp)).1, ih g (List.nodup_cons.mp hnd).2
          (fun c2 hc2 => hg c2 (List.mem_cons_of_mem c hc2))]
      · rfl
      · intro x hx y hy he
        obtain ⟨c', hc', hyc⟩ := mem_catMap.mp hy
        have h1 : x = c := (hg c (by simp)).2 x hx
        have h2 : y = c' := (hg c' (List.mem_cons_of_mem c hc')).2 y hyc
        rw [h1, h2] at he
        exact (List.nodup_cons.mp hnd).1 (he ▸ hc')

theorem blocked_heads {α : Type} {cs : List String} {hd : α → String}
    {l : List α} (hB : Blocked cs hd l) (hnd : cs.Nodup) :
    keyList (l.map hd) = cs := by
  obtain ⟨f, rfl, hf⟩ := hB
  rw [catMap_map]
  apply keyList_catMap_const cs _ hnd
  intro c hc
  constructor
  · intro hnil
    exact (hf c hc).1 (List.map_eq_nil_iff.mp hnil)
  · intro x hx
    obtain ⟨x0, hx0, he⟩ := List.mem_map.mp hx
    rw [← he]
    exact (hf c hc).2 x0 hx0

theorem headD_eraseIdx (l : List String) (n : Nat) :
    (l.eraseIdx (n + 1)).headD "" = l.headD "" := by
  cases l <;> rfl

theorem headD_take (l : List String) (n : Nat) :
    (l.take (n + 1)).headD "" = l.headD "" := by
  cases l <;> rfl

theorem getD_zero_headD (l : List String) : l.getD 0 "" = l.headD "" := by
  cases l <;> rfl

theorem headD_append_singleton {l : List String} (h : l ≠ []) (a : String) :
    (l ++ [a]).headD "" = l.headD "" := by
  cases l with
  | nil => exact absurd rfl h
  | cons b t => rfl

theorem map_congr_mem {α β : Type} {l : List α} {f g : α → β}
    (h : ∀ a ∈ l, f a = g a) : l.map f = l.map g := by
  induction l with
  | nil => rfl
  | cons a t ih =>
      simp only [List.map_cons]
      rw [h a (by simp), ih (fun x hx => h x (List.mem_cons_of_mem a hx))]

theorem exbind_error {ε α β : Type} (m : ε) (f : α → Except ε β) :
    (Except.error m : Except ε α) >>= f = .error m := rfl

theorem exbind_ok {ε α β : Type} (a : α) (f : α → Except ε β) :
    (Except.ok a : Except ε α) >>= f = f a := rfl

theorem blocked_loc {cs : List String} {rows out : List (List String × List Int)}
    (h : locLevel0 cs rows = .ok out) :
    Blocked cs (fun r => r.1.headD "") out := by
  unfold locLevel0 at h
  split at h
  case isFalse => exact Except.noConfusion h
  case isTrue hcond =>
    refine ⟨fun c => rows.filter (fun r => r.1.headD "" == c),
      (Except.ok.inj h).symm, fun c hc => ⟨?_, ?_⟩⟩
    · obtain ⟨r, hr, hp⟩ :=
        List.any_eq_true.mp (List.all_eq_true.mp hcond c hc)
      intro hnil
      have hnil' : rows.filter (fun r => r.1.headD "" == c) = [] := hnil
      have hmem : r ∈ rows.filter (fun r => r.1.headD "" == c) :=
        List.mem_filter.mpr ⟨hr, hp⟩
      rw [hnil'] at hmem
      exact absurd hmem (List.not_mem_nil r)
    · intro x hx
      exact beq_iff_eq.mp (List.mem_filter.mp hx).2

theorem locLevel0_error {cs : List String}
    {rows : List (List String × List Int)}
    (h : ∃ c ∈ cs, ∀ r ∈ rows, r.1.headD "" ≠ c) :
    locLevel0 cs rows = .error "KeyError" := by
  obtain ⟨c, hc, hno⟩ := h
  unfold locLevel0
  rw [if_neg]
  intro hall
  obtain ⟨r, hr, hp⟩ := List.any_eq_true.mp (List.all_eq_true.mp hall c hc)
  exact hno r hr (beq_iff_eq.mp hp)

theorem blocked_unstack {cs : List String} {s : List (List String × Int)}
    (hB : Blocked cs (fun e => e.1.headD "") s) (hnd : cs.Nodup)
    (n m : Nat) :
    Blocked cs (fun r => r.1.headD "") (unstackLevel n (m + 1) s).rows := by
  show Blocked cs _ ((keyList (s.map (fun e => e.1.eraseIdx (m + 1)))).map _)
  exact blocked_map
    (blocked_keyed hB hnd (fun e => e.1.eraseIdx (m + 1))
      (fun x _ _ => headD_eraseIdx x.1 m))
    _ (fun k _ _ => rfl)

theorem blocked_seriesGroupSum {cs : List String} {s : List (List String × Int)}
    (hB : Blocked cs (fun e => e.1.headD "") s) (hnd : cs.Nodup)
    (keyf : List String → List String)
    (hk : ∀ x ∈ s, x.1.headD "" ∈ cs → (keyf x.1).headD "" = x.1.headD "") :
    Blocked cs (fun e => e.1.headD "") (seriesGroupSum keyf s) :=
  blocked_map (blocked_keyed hB hnd (fun e => keyf e.1) hk) _ (fun _ _ _ => rfl)

theorem blocked_regroupSum {cs : List String}
    {rows : List (List String × List Int)}
    (hB : Blocked cs (fun r => r.1.headD "") rows) (hnd : cs.Nodup)
    (keyf : List String → List String)
    (hk : ∀ x ∈ rows, x.1.headD "" ∈ cs → (keyf x.1).headD "" = x.1.headD "") :
    Blocked cs (fun r => r.1.headD "") (regroupSum keyf rows) :=
  blocked_map (blocked_keyed hB hnd (fun r => keyf r.1) hk) _ (fun _ _ _ => rfl)

theorem blocked_stack {cs : List String} {matCols : List String}
    {rows : List (List String × List Int)}
    (hB : Blocked cs (fun r => r.1.headD "") rows) (hm : matCols ≠ [])
    (hcs : "" ∉ cs) :
    Blocked cs (fun e => e.1.headD "") (stackEntries matCols rows) := by
  apply blocked_catMap hB
  intro x _ hhd
  constructor
  · intro hnil
    have hr : List.range matCols.length = [] := List.map_eq_nil_iff.mp hnil
    exact hm (List.length_eq_zero.mp (List.range_eq_nil.mp hr))
  · intro y hy
    obtain ⟨j, _, he⟩ := List.mem_map.mp hy
    rw [← he]
    show (x.1 ++ [matCols.getD j ""]).headD "" = x.1.headD ""
    apply headD_append_singleton
    intro hx1nil
    rw [hx1nil] at hhd
    exact hcs hhd

theorem headD_map_renameLabel (l : List String) :
    (l.map (renameLabel rename_dict)).headD "" =
      renameLabel rename_dict (l.headD "") := by
  cases l with
  | nil => rfl
  | cons a t => rfl

theorem countryLevel_renameIndex {cs : List String} {t : MTable}
    (hB : Blocked cs (fun r => r.1.headD "") t.rows) (hnd : cs.Nodup)
    (hinj : ∀ a ∈ cs, ∀ b ∈ cs,
      renameLabel rename_dict a = renameLabel rename_dict b → a = b) :
    countryLevel (renameIndex t) = cs.map (renameLabel rename_dict) := by
  show keyList ((t.rows.map _).map _) = _
  rw [List.map_map]
  have h1 : t.rows.map ((fun r : List String × List Int => r.1.headD "") ∘
        (fun r : List String × List Int =>
          (r.1.map (renameLabel rename_dict), r.2))) =
      (t.rows.map (fun r => r.1.headD "")).map (renameLabel rename_dict) := by
    rw [List.map_map]
    apply map_congr_mem
    intro r _
    exact headD_map_renameLabel r.1
  rw [h1, keyList_map_inj, blocked_heads hB hnd]
  intro a ha b hb
  obtain ⟨ra, hra, hea⟩ := List.mem_map.mp ha
  obtain ⟨rb, hrb, heb⟩ := List.mem_map.mp hb
  exact hinj a (hea ▸ blocked_hd_mem hB ra hra) b (heb ▸ blocked_hd_mem hB rb hrb)

theorem blocked_df_ey {e : EmCSV} {t : MTable} (h : df_ey e = .ok t)
    (hm : e.matCols ≠ []) :
    Blocked countries (fun r => r.1.headD "") t.rows := by
  simp only [df_ey] at h
  cases hloc : locLevel0 countries (groupBySum
      (fun r => [r.country, r.scenario, r.year]) (fun r => r.vals) e.rows) with
  | error m => rw [hloc] at h; exact Except.noConfusion h
  | ok out =>
      rw [hloc] at h
      have ht : unstackLevel 3 2 (stackEntries e.matCols out) = t :=
        Except.ok.inj h
      rw [← ht]
      exact blocked_unstack (blocked_stack (blocked_loc hloc) hm (by decide))
        (by decide) 3 1

theorem blocked_df_etm {e : EmCSV} {tt tm : MTable}
    (h : df_etm e = .ok (tt, tm)) (hm : e.matCols ≠ []) :
    Blocked countries (fun r => r.1.headD "") tt.rows ∧
    Blocked countries (fun r => r.1.headD "") tm.rows := by
  simp only [df_etm] at h
  cases hloc : locLevel0 countries (groupByFirst
      (fun r => [r.country, r.scenario, r.year, r.tech])
      (fun r => r.vals) e.rows) with
  | error m => rw [hloc] at h; exact Except.noConfusion h
  | ok out =>
      rw [hloc] at h
      have hpair : (unstackLevel 3 2 (stackEntries e.matCols
            (regroupSum (fun k => [k.getD 0 "", k.getD 1 "", k.getD 3 ""]) out)),
          (MTable.mk 2 e.matCols (regroupSum (fun k => k.take 2) out))) =
          (tt, tm) := Except.ok.inj h
      have h1 : unstackLevel 3 2 (stackEntries e.matCols
          (regroupSum (fun k => [k.getD 0 "", k.getD 1 "", k.getD 3 ""]) out)) =
          tt := congrArg Prod.fst hpair
      have h2 : MTable.mk 2 e.matCols
          (regroupSum (fun k => k.take 2) out) = tm := congrArg Prod.snd hpair
      constructor
      · rw [← h1]
        refine blocked_unstack (blocked_stack
          (blocked_regroupSum (blocked_loc hloc) (by decide) _ ?_)
          hm (by decide)) (by decide) 3 1
        intro x _ _
        exact getD_zero_headD x.1
      · rw [← h2]
        show Blocked countries _ (regroupSum (fun k => k.take 2) out)
        refine blocked_regroupSum (blocked_loc hloc) (by decide) _ ?_
        intro x _ _
        exact headD_take x.1 1

theorem blocked_df_j {j : List JRow} {s : List (List String × Int)}
    (h : df_j_series j = .ok s) :
    Blocked countries_alt (fun e => e.1.headD "") s := by
  simp only [df_j_series] at h
  cases hloc : locLevel0 countries_alt (groupByFirst
      (fun r => [r.country, r.scenario, r.year, r.tech, r.indicator])
      (fun r => [r.value]) (jobs_filter j)) with
  | error m => rw [hloc] at h; exact Except.noConfusion h
  | ok out =>
      rw [hloc] at h
      have hs : out.map (fun r => (r.1, r.2.headD 0)) = s := Except.ok.inj h
      rw [← hs]
      exact blocked_map (blocked_loc hloc) _ (fun _ _ _ => rfl)

theorem df_ey_error {e : EmCSV}
    (h : ∃ c ∈ countries, ∀ r ∈ e.rows, r.country ≠ c) :
    df_ey e = .error "KeyError" := by
  obtain ⟨c, hc, hno⟩ := h
  have hloc : locLevel0 countries (groupBySum
      (fun r => [r.country, r.scenario, r.year]) (fun r => r.vals) e.rows) =
      .error "KeyError" := by
    apply locLevel0_error
    refine ⟨c, hc, ?_⟩
    intro r hr
    simp only [groupBySum] at hr
    obtain ⟨k, hk, he⟩ := List.mem_map.mp hr
    obtain ⟨r0, hr0, hke⟩ := List.mem_map.mp (mem_keyList.mp hk)
    have hr1 : r.1 = k := by rw [← he]
    rw [hr1, ← hke]
    exact hno r0 hr0
  show (locLevel0 countries (groupBySum
      (fun r => [r.country, r.scenario, r.year]) (fun r => r.vals) e.rows)).map
      (fun rows => unstackLevel 3 2 (stackEntries e.matCols rows)) =
      .error "KeyError"
  rw [hloc]
  rfl

theorem df_j_error {j : List JRow}
    (h : ∃ c ∈ countries_alt, ∀ r ∈ jobs_filter j, r.country ≠ c) :
    df_j_series j = .error "KeyError" := by
  obtain ⟨c, hc, hno⟩ := h
  have hloc : locLevel0 countries_alt (groupByFirst
      (fun r => [r.country, r.scenario, r.year, r.tech, r.indicator])
      (fun r => [r.value]) (jobs_filter j)) = .error "KeyError" := by
    apply locLevel0_error
    refine ⟨c, hc, ?_⟩
    intro r hr
    simp only [groupByFirst] at hr
    obtain ⟨k, hk, he⟩ := List.mem_map.mp hr
    obtain ⟨r0, hr0, hke⟩ := List.mem_map.mp (mem_keyList.mp hk)
    have hr1 : r.1 = k := by rw [← he]
    rw [hr1, ← hke]
    exact hno r0 hr0
  show (locLevel0 countries_alt (groupByFirst
      (fun r => [r.country, r.scenario, r.year, r.tech, r.indicator])
      (fun r => [r.value]) (jobs_filter j))).map
      (fun l => l.map (fun r => (r.1, r.2.headD 0))) = .error "KeyError"
  rw [hloc]
  rfl

/-- C3 counterexample: on a valid input (every `.loc` lookup succeeds and
`load_dfs` returns all seven tables) the jobs tables are country-indexed
output tables, yet the fifth configured country (UK, reported as
"United Kingdom") does not appear in their Country level — jobs rows are
selected with `countries_alt`, which omits UK. -/
theorem uk_missing_from_jobs_tables :
    exIsOk (load_dfs eC2 jC2) = true ∧
    "United Kingdom" ∉ countryLevel (exGetRes (load_dfs eC2 jC2)).jobs_year ∧
    "UK" ∉ countryLevel (exGetRes (load_dfs eC2 jC2)).jobs_year ∧
    "United Kingdom" ∉ countryLevel (exGetRes (load_dfs eC2 jC2)).jobs_year_full ∧
    "United Kingdom" ∉ countryLevel (exGetRes (load_dfs eC2 jC2)).jobs_tech ∧
    "United Kingdom" ∉ countryLevel (exGetRes (load_dfs eC2 jC2)).jobs_ind :=
  ⟨by decide, by decide, by decide, by decide, by decide, by decide⟩

/-- C3 (amended): whenever `load_dfs` succeeds (and the emissions CSV has at
least one material column), the Country level of the three emissions-derived
tables is exactly the five configured countries — under their full names, in
configured order — while the Country level of the four jobs-derived tables is
exactly the four non-UK configured countries, in configured order (UK is
deliberately excluded from jobs data).  Absence of one of the five configured
codes from the emissions data, or of one of the four non-UK codes from the
filtered jobs data, is a hard failure: `load_dfs` raises a lookup error
rather than silently omitting the country. -/
theorem configured_countries_in_tables (e : EmCSV) (j : List JRow) :
    (∀ T, load_dfs e j = .ok T → e.matCols ≠ [] →
      countryLevel T.emissions_year = full_names ∧
      countryLevel T.emissions_tech = full_names ∧
      countryLevel T.emissions_mat = full_names ∧
      countryLevel T.jobs_year = full_names_alt ∧
      countryLevel T.jobs_year_full = full_names_alt ∧
      countryLevel T.jobs_tech = full_names_alt ∧
      countryLevel T.jobs_ind = full_names_alt) ∧
    ((∃ c ∈ countries, ∀ r ∈ e.rows, r.country ≠ c) →
      exIsOk (load_dfs e j) = false) ∧
    ((∃ c ∈ countries_alt, ∀ r ∈ jobs_filter j, r.country ≠ c) →
      exIsOk (load_dfs e j) = false) := by
  refine ⟨?_, ?_, ?_⟩
  · intro T hT hm
    cases hey : df_ey e with
    | error m =>
        simp only [load_dfs, hey, exbind_error] at hT
        exact Except.noConfusion hT
    | ok ey =>
    cases hetm : df_etm e with
    | error m =>
        simp only [load_dfs, hey, hetm, exbind_ok, exbind_error] at hT
        exact Except.noConfusion hT
    | ok etm =>
    cases hjs : df_j_series j with
    | error m =>
        simp only [load_dfs, hey, hetm, hjs, exbind_ok, exbind_error] at hT
        exact Except.noConfusion hT
    | ok s =>
        obtain ⟨tt, tm⟩ := etm
        have hTv : Res.mk (renameIndex ey) (renameIndex tt) (renameIndex tm)
            (renameIndex (df_jy s)) (renameIndex (df_jyf s))
            (renameIndex (df_jt s)) (renameIndex (df_ji s)) = T := by
          have hld : load_dfs e j = .ok (Res.mk (renameIndex ey)
              (renameIndex tt) (renameIndex tm) (renameIndex (df_jy s))
              (renameIndex (df_jyf s)) (renameIndex (df_jt s))
              (renameIndex (df_ji s))) := by
            simp only [load_dfs, hey, hetm, hjs, exbind_ok]
          rw [hld] at hT
          exact Except.ok.inj hT
        rw [← hTv]
        have hBey := blocked_df_ey hey hm
        have hBetm := blocked_df_etm hetm hm
        have hBs := blocked_df_j hjs
        refine ⟨?_, ?_, ?_, ?_, ?_, ?_, ?_⟩
        · show countryLevel (renameIndex ey) = full_names
          rw [countryLevel_renameIndex hBey (by decide) (by decide)]
          decide
        · show countryLevel (renameIndex tt) = full_names
          rw [countryLevel_renameIndex hBetm.1 (by decide) (by decide)]
          decide
        · show countryLevel (renameIndex tm) = full_names
          rw [countryLevel_renameIndex hBetm.2 (by decide) (by decide)]
          decide
        · show countryLevel (renameIndex (df_jy s)) = full_names_alt
          have hBjy : Blocked countries_alt (fun r => r.1.headD "")
              (df_jy s).rows :=
            blocked_unstack (blocked_seriesGroupSum hBs (by decide) _
              (fun x _ _ => headD_take x.1 3)) (by decide) 3 1
          rw [countryLevel_renameIndex hBjy (by decide) (by decide)]
          decide
        · show countryLevel (renameIndex (df_jyf s)) = full_names_alt
          have hBjyf : Blocked countries_alt (fun r => r.1.headD "")
              (df_jyf s).rows :=
            blocked_unstack hBs (by decide) 4 1
          rw [countryLevel_renameIndex hBjyf (by decide) (by decide)]
          decide
        · show countryLevel (renameIndex (df_jt s)) = full_names_alt
          have hBjt : Blocked countries_alt (fun r => r.1.headD "")
              (df_jt s).rows :=
            blocked_unstack (blocked_seriesGroupSum hBs (by decide)
              (fun k => [k.getD 0 "", k.getD 1 "", k.getD 4 "", k.getD 3 ""])
              (fun x _ _ => getD_zero_headD x.1)) (by decide) 3 2
          rw [countryLevel_renameIndex hBjt (by decide) (by decide)]
          decide
        · show countryLevel (renameIndex (df_ji s)) = full_names_alt
          have hBji : Blocked countries_alt (fun r => r.1.headD "")
              (df_ji s).rows :=
            blocked_unstack (blocked_seriesGroupSum hBs (by decide)
              (fun k => [k.getD 0 "", k.getD 1 "", k.getD 4 ""])
              (fun x _ _ => getD_zero_headD x.1)) (by decide) 2 1
          rw [countryLevel_renameIndex hBji (by decide) (by decide)]
          decide
  · intro h
    have hey := df_ey_error h
    have hld : load_dfs e j = .error "KeyError" := by
      simp only [load_dfs, hey, exbind_error]
    rw [hld]
    rfl
  · intro h
    have hjs := df_j_error h
    cases hey : df_ey e with
    | error m =>
        have hld : load_dfs e j = .error m := by
          simp only [load_dfs, hey, exbind_error]
        rw [hld]
        rfl
    | ok ey =>
        cases hetm : df_etm e with
        | error m =>
            have hld : load_dfs e j = .error m := by
              simp only [load_dfs, hey, hetm, exbind_ok, exbind_error]
            rw [hld]
            rfl
        | ok etm =>
            have hld : load_dfs e j = .error "KeyError" := by
              simp only [load_dfs, hey, hetm, hjs, exbind_ok, exbind_error]
            rw [hld]
            rfl

theorem configured_countries_in_tables_witness :
    (load_dfs eC2 jC2 = .ok (exGetRes (load_dfs eC2 jC2)) ∧
      eC2.matCols ≠ [] ∧
      countryLevel (exGetRes (load_dfs eC2 jC2)).emissions_year = full_names ∧
      countryLevel (exGetRes (load_dfs eC2 jC2)).jobs_year = full_names_alt) ∧
    ((∃ c ∈ countries, ∀ r ∈ eBad.rows, r.country ≠ c) ∧
      exIsOk (load_dfs eBad jC2) = false) :=
  ⟨⟨rfl, by decide,
    ((configured_countries_in_tables eC2 jC2).1 _ rfl (by decide)).1,
    ((configured_countries_in_tables eC2 jC2).1 _ rfl (by decide)).2.2.2.1⟩,
   ⟨⟨"ZM", by decide, by decide⟩,
    (configured_countries_in_tables eBad jC2).2.1 ⟨"ZM", by decide, by decide⟩⟩⟩

theorem jobs_row_excluded_witness :
    ((JRow.mk "KE" "Base" "Wind" "Power Generation Capacity (Aggregate)"
        "Capacity" "2020" 9).indicator = "Capacity" ∨
      (JRow.mk "KE" "Base" "Wind" "Power Generation Capacity (Aggregate)"
        "Capacity" "2020" 9).parameter ≠
        "Power Generation Capacity (Aggregate)") ∧
    load_dfs eC2 (jC2 ++ JRow.mk "KE" "Base" "Wind"
        "Power Generation Capacity (Aggregate)" "Capacity" "2020" 9 :: []) =
      load_dfs eC2 (jC2 ++ []) :=
  ⟨Or.inl rfl,
   jobs_row_excluded eC2 jC2 []
     (JRow.mk "KE" "Base" "Wind" "Power Generation Capacity (Aggregate)"
       "Capacity" "2020" 9) (Or.inl rfl)⟩
